import Mathlib

/-!
Verification of the pallet/dispatch runtime (balances, staking, system,
runtime composition) against its natural-language specification.

The Rust source is generic over a `Config` trait; the `Runtime` in
`main.rs` instantiates it with `AccountId = String`, `Balance = u128`,
`BlockNumber = u32`, `Nonce = u32`.  The embedding below works at that
concrete instantiation: balances are `Nat` together with explicit
`% 2 ^ 128` range checks for the `checked_add` / `checked_sub` u128
operations; block numbers and nonces are `Nat` (no claim exercises u32
wrap-around).  `BTreeMap` is modelled as an association list with
first-match lookup and replace-first insertion; no claim depends on the
key-sorted iteration order of `BTreeMap`.  A Rust method taking
`&mut self` and returning `Result` is embedded as a function returning
the pair (result, updated state), so that mutations performed before an
early `return Err(..)` are kept, exactly as in the source.
-/

/-- Largest value of the Rust `u128` type. -/
def U128MAX : Nat := 2 ^ 128 - 1

/-- `u128::checked_add`: `none` on overflow past `U128MAX`. -/
def checkedAdd (a b : Nat) : Option Nat :=
  if a + b ≤ U128MAX then some (a + b) else none

/-- `u128::checked_sub`: `none` on underflow below zero. -/
def checkedSub (a b : Nat) : Option Nat :=
  if b ≤ a then some (a - b) else none

/-! ### Association-list model of `BTreeMap` -/
/-- `BTreeMap::get`, first matching key. -/
def lookupO {α β : Type} [DecidableEq α] : List (α × β) → α → Option β
  | [], _ => none
  | (k, v) :: t, k2 => if k = k2 then some v else lookupO t k2

/-- `BTreeMap::insert`: replace the first binding of the key, or append. -/
def setB {α β : Type} [DecidableEq α] : List (α × β) → α → β → List (α × β)
  | [], k, v => [(k, v)]
  | (k1, v1) :: t, k, v =>
      if k1 = k then (k, v) :: t else (k1, v1) :: setB t k v

/-- `BTreeMap::remove` (the claims only need the state effect). -/
def eraseB {α β : Type} [DecidableEq α] : List (α × β) → α → List (α × β)
  | [], _ => []
  | (k1, v1) :: t, k => if k1 = k then t else (k1, v1) :: eraseB t k

/-- `BTreeMap::contains_key`. -/
def containsB {α β : Type} [DecidableEq α] (m : List (α × β)) (k : α) : Bool :=
  (lookupO m k).isSome

/-- Sum of the values of an association list with `Nat` values. -/
def totalOf {α : Type} (m : List (α × Nat)) : Nat :=
  (m.map Prod.snd).sum

/-! ### Balances pallet (`src/balances.rs`) -/
/-- `BalancesError` from `balances.rs`. -/
inductive BalancesError where
  | InsufficientBalance
  | InsufficientFunds
  | OverflowInCalculation
  | OverflowInTransfer
  | InvalidAmount
deriving DecidableEq, Repr

/-- `balances::Pallet` at the runtime's concrete types. -/
structure BalancesPallet where
  balances : List (String × Nat)
  base_fee : Nat
  fee_recipient : Option String
deriving DecidableEq, Repr

/-- `Pallet::new`: empty ledger, zero fee, no recipient. -/
def BalancesPallet.new : BalancesPallet :=
  { balances := [], base_fee := 0, fee_recipient := none }

/-- `Pallet::new_with_fee_config`. -/
def new_with_fee_config (base_fee : Nat) (fee_recipient : Option String) :
    BalancesPallet :=
  { balances := [], base_fee := base_fee, fee_recipient := fee_recipient }

/-- `Pallet::balance`: zero for absent accounts. -/
def balance (st : BalancesPallet) (who : String) : Nat :=
  (lookupO st.balances who).getD 0

/-- `Pallet::set_balance`: unconditional overwrite. -/
def set_balance (st : BalancesPallet) (who : String) (amount : Nat) :
    BalancesPallet :=
  { st with balances := setB st.balances who amount }

/-- `Pallet::calculate_fee`: flat base fee, the amount is ignored. -/
def calculate_fee (st : BalancesPallet) (_amount : Nat) : Nat :=
  st.base_fee

/-- `Pallet::get_transfer_cost`. -/
def get_transfer_cost (st : BalancesPallet) (amount : Nat) :
    Except BalancesError Nat :=
  match checkedAdd amount (calculate_fee st amount) with
  | none => .error .OverflowInCalculation
  | some total_cost => .ok total_cost

/-- `Pallet::handle_fee_payment`.  The payer is debited first; if a fee
recipient is configured it is then credited, and an overflow there
returns an error with the payer's debit already applied (as in the
source, where the early `return` keeps prior mutations). -/
def handle_fee_payment (st : BalancesPallet) (who : String) (fee : Nat) :
    Except BalancesError Unit × BalancesPallet :=
  let payer_balance := balance st who
  match checkedSub payer_balance fee with
  | none => (.error .InsufficientFunds, st)
  | some new_balance =>
      let st1 : BalancesPallet :=
        { st with balances := setB st.balances who new_balance }
      match st1.fee_recipient with
      | none => (.ok (), st1)
      | some recipient =>
          let recipient_balance := balance st1 recipient
          match checkedAdd recipient_balance fee with
          | none => (.error .OverflowInCalculation, st1)
          | some new_recipient_balance =>
              (.ok (), { st1 with
                balances := setB st1.balances recipient new_recipient_balance })

/-- `Pallet::transfer`: fee computation, front-loaded checks, the two
ledger inserts, then `handle_fee_payment`. -/
def transfer (st : BalancesPallet) (sender receiver : String) (amount : Nat) :
    Except BalancesError Unit × BalancesPallet :=
  let fee := calculate_fee st amount
  let sender_balance := balance st sender
  let receiver_balance := balance st receiver
  match checkedAdd amount fee with
  | none => (.error .OverflowInCalculation, st)
  | some total_needed =>
      if sender_balance < total_needed then (.error .InsufficientBalance, st)
      else
        match checkedSub sender_balance amount with
        | none => (.error .InsufficientFunds, st)
        | some new_sender_balance =>
            match checkedAdd receiver_balance amount with
            | none => (.error .OverflowInTransfer, st)
            | some new_receiver_balance =>
                let st1 : BalancesPallet :=
                  { st with balances := setB st.balances sender new_sender_balance }
                let st2 : BalancesPallet :=
                  { st1 with
                    balances := setB st1.balances receiver new_receiver_balance }
                handle_fee_payment st2 sender fee

instance exceptDecEq {ε α : Type} [DecidableEq ε] [DecidableEq α] :
    DecidableEq (Except ε α) := fun a b =>
  match a, b with
  | .ok a1, .ok a2 =>
      if h : a1 = a2 then isTrue (by rw [h])
      else isFalse (fun he => h (Except.ok.inj he))
  | .ok _, .error _ => isFalse (fun he => Except.noConfusion he)
  | .error _, .ok _ => isFalse (fun he => Except.noConfusion he)
  | .error e1, .error e2 =>
      if h : e1 = e2 then isTrue (by rw [h])
      else isFalse (fun he => h (Except.error.inj he))

/-- One entry of a sequence of `transfer` calls. -/
structure TransferOp where
  sender : String
  receiver : String
  amount : Nat
deriving DecidableEq, Repr

/-- Run a sequence of transfers; as in the Rust pallet, a failed call
leaves behind whatever state it produced and the sequence continues. -/
def runTransfers : BalancesPallet → List TransferOp → BalancesPallet
  | st, [] => st
  | st, op :: rest =>
      runTransfers (transfer st op.sender op.receiver op.amount).2 rest

/-- Every transfer of the sequence succeeds. -/
def allOkT : BalancesPallet → List TransferOp → Bool
  | _, [] => true
  | st, op :: rest =>
      (transfer st op.sender op.receiver op.amount).1.isOk
        && allOkT (transfer st op.sender op.receiver op.amount).2 rest

/-- Number of transfers of the sequence that succeed. -/
def countOkT : BalancesPallet → List TransferOp → Nat
  | _, [] => 0
  | st, op :: rest =>
      (if (transfer st op.sender op.receiver op.amount).1.isOk then 1 else 0)
        + countOkT (transfer st op.sender op.receiver op.amount).2 rest

/-- Scenario C state: base fee 5, fee recipient "treasury" (balance 10),
alice's balance set to 100. -/
def stScenC : BalancesPallet :=
  set_balance
    (set_balance (new_with_fee_config 5 (some "treasury")) "alice" 100)
    "treasury" 10

/-- State for the C2 counterexample: base fee 1, fee recipient "charlie"
holding the maximal u128 balance, alice holding 10. -/
def stOverflow : BalancesPallet :=
  set_balance
    (set_balance (new_with_fee_config 1 (some "charlie")) "alice" 10)
    "charlie" U128MAX

/-! ### Staking pallet (`src/staking.rs`) -/
/-- `StakingError` from `staking.rs`. -/
inductive StakingError where
  | InsufficientBalance
  | NotStaked
  | AlreadyStaked
  | MinimumStakeNotMet
  | InvalidValidator
  | TooManyValidators
  | NotValidator
  | AlreadyValidator
  | RewardCalculationError
  | UnstakingPeriodNotMet
deriving DecidableEq, Repr

/-- `StakeInfo` from `staking.rs`. -/
structure StakeInfo where
  staked_amount : Nat
  validator : String
  stake_block : Nat
  last_reward_block : Nat
  total_rewards : Nat
deriving DecidableEq, Repr

/-- `ValidatorInfo` from `staking.rs` (`commission_rate` is a `u8`,
`nominators_count` and `blocks_produced` are `u32`; no claim exercises
their wrap-around, so they are embedded as `Nat`). -/
structure ValidatorInfo where
  total_stake : Nat
  commission_rate : Nat
  is_active : Bool
  nominators_count : Nat
  blocks_produced : Nat
deriving DecidableEq, Repr

/-- `StakingEvent` from `staking.rs`. -/
inductive StakingEvent where
  | Staked (who : String) (amount : Nat) (validator : String)
  | Unstaked (who : String) (amount : Nat)
  | ValidatorAdded (validator : String)
  | ValidatorRemoved (validator : String)
  | RewardsPaid (who : String) (amount : Nat)
  | SlashApplied (who : String) (amount : Nat)
deriving DecidableEq, Repr

/-- `staking::Pallet` at the runtime's concrete types. -/
structure StakingPallet where
  stakes : List (String × StakeInfo)
  validators : List (String × ValidatorInfo)
  minimum_stake : Nat
  reward_rate : Nat
  unstaking_period : Nat
  max_validators : Nat
  total_staked : Nat
  current_block : Nat
  events : List StakingEvent
deriving DecidableEq, Repr

/-- `Pallet::new` (staking). -/
def StakingPallet.new : StakingPallet :=
  { stakes := [], validators := [], minimum_stake := 0, reward_rate := 0,
    unstaking_period := 0, max_validators := 10, total_staked := 0,
    current_block := 0, events := [] }

/-- `Pallet::new_with_config` (staking). -/
def new_with_config (minimum_stake reward_rate unstaking_period
    max_validators : Nat) : StakingPallet :=
  { stakes := [], validators := [], minimum_stake := minimum_stake,
    reward_rate := reward_rate, unstaking_period := unstaking_period,
    max_validators := max_validators, total_staked := 0,
    current_block := 0, events := [] }

/-- `Pallet::add_validator`: duplicate check, capacity check, commission
check, then insert a fresh `ValidatorInfo` and emit `ValidatorAdded`. -/
def add_validator (st : StakingPallet) (validator : String)
    (commission_rate : Nat) : Except StakingError Unit × StakingPallet :=
  if containsB st.validators validator then (.error .AlreadyValidator, st)
  else if st.validators.length ≥ st.max_validators then
    (.error .TooManyValidators, st)
  else if commission_rate > 100 then (.error .InvalidValidator, st)
  else
    let validator_info : ValidatorInfo :=
      { total_stake := 0, commission_rate := commission_rate,
        is_active := true, nominators_count := 0, blocks_produced := 0 }
    let st1 :=
      { st with validators := setB st.validators validator validator_info }
    (.ok (), { st1 with events := st1.events ++ [.ValidatorAdded validator] })

/-- `Pallet::remove_validator`. -/
def remove_validator (st : StakingPallet) (validator : String) :
    Except StakingError Unit × StakingPallet :=
  if ¬containsB st.validators validator then (.error .NotValidator, st)
  else
    let st1 := { st with validators := eraseB st.validators validator }
    (.ok (), { st1 with events := st1.events ++ [.ValidatorRemoved validator] })

/-- Tail of `Pallet::stake` after the `if let Some(validator_info)`
block: insert the `StakeInfo`, then add to `total_staked` (an overflow
there errors out with the stake already recorded, as in the source),
then emit `Staked`. -/
def stake_rest (st : StakingPallet) (who : String) (amount : Nat)
    (validator : String) (stake_info : StakeInfo) :
    Except StakingError Unit × StakingPallet :=
  let st2 := { st with stakes := setB st.stakes who stake_info }
  match checkedAdd st2.total_staked amount with
  | none => (.error .RewardCalculationError, st2)
  | some nt =>
      let st3 := { st2 with total_staked := nt }
      (.ok (), { st3 with
        events := st3.events ++ [.Staked who amount validator] })

/-- `Pallet::stake`: validation (already staked, minimum, validator
present and active, balance oracle), then validator-total update,
`StakeInfo` insertion, global total update, `Staked` event. -/
def stake (st : StakingPallet) (who : String) (amount : Nat)
    (validator : String) (balance_check : String → Nat) :
    Except StakingError Unit × StakingPallet :=
  if containsB st.stakes who then (.error .AlreadyStaked, st)
  else if amount < st.minimum_stake then (.error .MinimumStakeNotMet, st)
  else
    match lookupO st.validators validator with
    | none => (.error .InvalidValidator, st)
    | some validator_info =>
        if !validator_info.is_active then (.error .InvalidValidator, st)
        else if balance_check who < amount then (.error .InsufficientBalance, st)
        else
          let stake_info : StakeInfo :=
            { staked_amount := amount, validator := validator,
              stake_block := st.current_block,
              last_reward_block := st.current_block, total_rewards := 0 }
          -- `if let Some(validator_info) = self.validators.get_mut(..)`
          match lookupO st.validators validator with
          | none => stake_rest st who amount validator stake_info
          | some vi =>
              match checkedAdd vi.total_stake amount with
              | none => (.error .RewardCalculationError, st)
              | some nts =>
                  let vi2 : ValidatorInfo :=
                    { vi with
                        total_stake := nts
                        nominators_count := vi.nominators_count + 1 }
                  stake_rest
                    { st with validators := setB st.validators validator vi2 }
                    who amount validator stake_info

/-- Tail of `Pallet::unstake` after the `if let Some(validator_info)`
block: remove the `StakeInfo`, subtract from `total_staked` (an
underflow there errors out with the stake already removed, as in the
source), then emit `Unstaked`. -/
def unstake_rest (st : StakingPallet) (who : String) (staked_amount : Nat) :
    Except StakingError Nat × StakingPallet :=
  let st2 := { st with stakes := eraseB st.stakes who }
  match checkedSub st2.total_staked staked_amount with
  | none => (.error .RewardCalculationError, st2)
  | some nt =>
      let st3 := { st2 with total_staked := nt }
      (.ok staked_amount, { st3 with
        events := st3.events ++ [.Unstaked who staked_amount] })

/-- `Pallet::unstake`.  Note the source computes
`let stake_block_plus_period = stake_info.stake_block;  // Simplified for now`
without ever adding `unstaking_period`, so the period gate compares
`current_block < stake_block`. -/
def unstake (st : StakingPallet) (who : String) :
    Except StakingError Nat × StakingPallet :=
  match lookupO st.stakes who with
  | none => (.error .NotStaked, st)
  | some stake_info =>
      let stake_block_plus_period := stake_info.stake_block
      if st.current_block < stake_block_plus_period then
        (.error .UnstakingPeriodNotMet, st)
      else
        let staked_amount := stake_info.staked_amount
        let validator := stake_info.validator
        match lookupO st.validators validator with
        | none => unstake_rest st who staked_amount
        | some vi =>
            match checkedSub vi.total_stake staked_amount with
            | none => (.error .RewardCalculationError, st)
            | some nts =>
                let vi2 : ValidatorInfo :=
                  { vi with
                      total_stake := nts
                      nominators_count := vi.nominators_count - 1 }
                unstake_rest
                  { st with validators := setB st.validators validator vi2 }
                  who staked_amount

/-- `Pallet::calculate_rewards`.  The source sets
`base_reward = self.reward_rate  // Simplified for now` and
`net_reward = base_reward  // Simplified for now`: the staked amount,
the elapsed blocks and the validator commission are never used. -/
def calculate_rewards (st : StakingPallet) (who : String) :
    Except StakingError Nat :=
  match lookupO st.stakes who with
  | none => .error .NotStaked
  | some stake_info =>
      let base_reward := st.reward_rate
      match lookupO st.validators stake_info.validator with
      | some _ =>
          let net_reward := base_reward
          .ok net_reward
      | none => .error .InvalidValidator

/-- `Pallet::claim_rewards`: compute the reward, stamp
`last_reward_block`, accumulate `total_rewards` (checked), emit
`RewardsPaid`. -/
def claim_rewards (st : StakingPallet) (who : String) :
    Except StakingError Nat × StakingPallet :=
  match calculate_rewards st who with
  | .error e => (.error e, st)
  | .ok reward_amount =>
      match lookupO st.stakes who with
      | some stake_info =>
          let si1 := { stake_info with last_reward_block := st.current_block }
          let stA := { st with stakes := setB st.stakes who si1 }
          match checkedAdd stake_info.total_rewards reward_amount with
          | none => (.error .RewardCalculationError, stA)
          | some ntr =>
              let si2 := { si1 with total_rewards := ntr }
              let stB := { stA with stakes := setB stA.stakes who si2 }
              (.ok reward_amount, { stB with
                events := stB.events ++ [.RewardsPaid who reward_amount] })
      | none =>
          (.ok reward_amount, { st with
            events := st.events ++ [.RewardsPaid who reward_amount] })

/-- `Pallet::distribute_rewards`: `claim_rewards` for every staker,
ignoring individual failures.  (`BTreeMap::keys` iterates in key order;
the embedding iterates in the stored list order — no claim depends on
the iteration order.) -/
def distribute_rewards (st : StakingPallet) : StakingPallet :=
  let stakers := st.stakes.map Prod.fst
  stakers.foldl (fun s staker => (claim_rewards s staker).2) st

/-- `Pallet::on_block`: record the block number, then auto-distribute. -/
def on_block (st : StakingPallet) (block_number : Nat) : StakingPallet :=
  distribute_rewards { st with current_block := block_number }

/-- `Pallet::is_staking`. -/
def is_staking (st : StakingPallet) (who : String) : Bool :=
  containsB st.stakes who

/-- `Pallet::get_total_staked`. -/
def get_total_staked (st : StakingPallet) : Nat :=
  st.total_staked

/-! ### Staking claim scaffolding -/
/-- Sum of `staked_amount` over all `StakeInfo` records. -/
def sumStakes (stakes : List (String × StakeInfo)) : Nat :=
  (stakes.map (fun p => p.2.staked_amount)).sum

/-- Sum of `staked_amount` over the `StakeInfo` records referencing
validator `v`. -/
def sumStakesFor (stakes : List (String × StakeInfo)) (v : String) : Nat :=
  (stakes.map
    (fun p => if p.2.validator = v then p.2.staked_amount else 0)).sum

/-- The staking totals invariant (spec I2/I3): `total_staked` is the sum
of all staked amounts, every registered validator's `total_stake` is the
sum over its stakers, and staker keys are unique. -/
def StakingInv (st : StakingPallet) : Prop :=
  st.total_staked = sumStakes st.stakes
  ∧ (∀ v vi, lookupO st.validators v = some vi →
      vi.total_stake = sumStakesFor st.stakes v)
  ∧ (st.stakes.map Prod.fst).Nodup

/-- One operation of a stake/unstake sequence (the balance oracle is the
caller-supplied closure, as in the source). -/
inductive StakeOp where
  | stakeOp (who : String) (amount : Nat) (validator : String)
      (balance_check : String → Nat)
  | unstakeOp (who : String)

/-- State reached after one operation (errors keep whatever state the
call produced, as with `&mut self` in the source). -/
def applyStakeOp (st : StakingPallet) : StakeOp → StakingPallet
  | .stakeOp who amount validator bc => (stake st who amount validator bc).2
  | .unstakeOp who => (unstake st who).2

/-- Whether the operation succeeds on the given state. -/
def opOk (st : StakingPallet) : StakeOp → Bool
  | .stakeOp who amount validator bc => (stake st who amount validator bc).1.isOk
  | .unstakeOp who => (unstake st who).1.isOk

/-- The operation either succeeds or leaves the state unchanged. -/
def opClean (st : StakingPallet) (op : StakeOp) : Prop :=
  opOk st op = true ∨ applyStakeOp st op = st

/-- Every operation of the sequence, run at the state it actually sees,
either succeeds or leaves the state unchanged (this excludes exactly the
`total_staked`-overflow failure of `stake`, which errors out with the
stake already recorded). -/
def seqClean : StakingPallet → List StakeOp → Prop
  | _, [] => True
  | st, op :: rest => opClean st op ∧ seqClean (applyStakeOp st op) rest

/-- Run a sequence of stake/unstake operations. -/
def runStakeOps : StakingPallet → List StakeOp → StakingPallet
  | st, [] => st
  | st, op :: rest => runStakeOps (applyStakeOp st op) rest

/-- Staking pallet as configured by `Runtime::new`:
minimum stake 100, reward rate 5, unstaking period 10, 10 validators. -/
def stStakeCfg : StakingPallet := new_with_config 100 5 10 10

/-- `stStakeCfg` after `add_validator("v1", 5)`. -/
def stStakeV : StakingPallet := (add_validator stStakeCfg "v1" 5).2

/-- `stStakeV` after `stake("u1", 200, "v1", |_| 1000)` (at block 0). -/
def stStaked : StakingPallet :=
  (stake stStakeV "u1" 200 "v1" (fun _ => 1000)).2

/-- Modelled from the spec: the documented reward formula —
`base = staked_amount × reward_rate × blocks_since_last_claim / 1000`,
net of the validator's commission share `base × commission_rate / 100`,
with `NotStaked` / `InvalidValidator` on the same lookup failures as the
code. -/
def calculate_rewards_spec (st : StakingPallet) (who : String) :
    Except StakingError Nat :=
  match lookupO st.stakes who with
  | none => .error .NotStaked
  | some stake_info =>
      match lookupO st.validators stake_info.validator with
      | none => .error .InvalidValidator
      | some validator_info =>
          let blocks_since := st.current_block - stake_info.last_reward_block
          let base_reward :=
            stake_info.staked_amount * st.reward_rate * blocks_since / 1000
          let commission :=
            base_reward * validator_info.commission_rate / 100
          .ok (base_reward - commission)

/-- Balance oracle reporting the maximal u128 balance for everyone. -/
def bigBC : String → Nat := fun _ => U128MAX

/-- Fresh staking pallet with validators "v1" and "v2" registered. -/
def stTwoVals : StakingPallet :=
  (add_validator (add_validator StakingPallet.new "v1" 0).2 "v2" 0).2

/-- The C6 counterexample sequence: two huge stakes, then a third stake
whose `total_staked` update overflows after the stake was recorded. -/
def cex6ops : List StakeOp :=
  [.stakeOp "u1" (2 ^ 127) "v1" bigBC,
   .stakeOp "u2" (2 ^ 127 - 1) "v2" bigBC,
   .stakeOp "u3" 1 "v2" bigBC]

/-- Fresh staking pallet with the single validator "v1". -/
def stOneVal : StakingPallet := (add_validator StakingPallet.new "v1" 0).2

/-! ### System pallet (`src/system.rs`) -/
/-- `system::Pallet` at the runtime's concrete types; a block hash
`[u8; 32]` is a list of 32 byte values. -/
structure SystemPallet where
  block_number : Nat
  nonce : List (String × Nat)
  block_hashes : List (Nat × List Nat)
deriving DecidableEq, Repr

/-- `Pallet::new` (system). -/
def SystemPallet.new : SystemPallet :=
  { block_number := 0, nonce := [], block_hashes := [] }

/-- `Pallet::inc_block_number` (no claim exercises u32 wrap-around). -/
def inc_block_number (st : SystemPallet) : SystemPallet :=
  { st with block_number := st.block_number + 1 }

/-- `Pallet::inc_nonce`: read (defaulting to zero), store incremented. -/
def inc_nonce (st : SystemPallet) (who : String) : SystemPallet :=
  let nonce := (lookupO st.nonce who).getD 0
  let new_nonce := nonce + 1
  { st with nonce := setB st.nonce who new_nonce }

/-- Big-endian bytes of a `u32` value (`u32::to_be_bytes`). -/
def u32be (n : Nat) : List Nat :=
  [n / 2 ^ 24 % 256, n / 2 ^ 16 % 256, n / 2 ^ 8 % 256, n % 256]

/-- `Pallet::generate_block_hash`: bytes 0-3 are the big-endian bytes of
`block_num_as_u32`, which the source computes as 0 when the block number
is zero and 1 otherwise; bytes 4-7 are the big-endian nonce count
(`nonce.len() as u32`); bytes 8-31 are the fixed pattern
`(i + block_num_as_u32) % 256`.  The previously finalized hash is never
read. -/
def generate_block_hash (st : SystemPallet) : List Nat :=
  let block_num_as_u32 : Nat := if st.block_number = 0 then 0 else 1
  u32be block_num_as_u32 ++ u32be (st.nonce.length % 2 ^ 32)
    ++ (List.range 24).map (fun i => ((i + 8) + block_num_as_u32) % 256)

/-- `Pallet::finalize_block`: compute the hash and record it under the
current block number. -/
def finalize_block (st : SystemPallet) : List Nat × SystemPallet :=
  let hash := generate_block_hash st
  (hash, { st with block_hashes := setB st.block_hashes st.block_number hash })

/-- `Pallet::get_block_hash`. -/
def get_block_hash (st : SystemPallet) (block_number : Nat) :
    Option (List Nat) :=
  lookupO st.block_hashes block_number

/-! ### Runtime composition (`src/main.rs`, `src/support.rs`) -/
/-- `balances::Call`. -/
inductive BalancesCall where
  | Transfer (to_ : String) (amount : Nat)
deriving Repr

/-- `staking::Call`. -/
inductive StakingCall where
  | AddValidator (validator : String) (commission : Nat)
  | Stake (validator : String) (amount : Nat)
  | Unstake
  | ClaimRewards
deriving Repr

/-- `RuntimeCall`: the union of the pallet call types. -/
inductive RuntimeCall where
  | Balances (call : BalancesCall)
  | Staking (call : StakingCall)
deriving Repr

/-- The `Runtime` aggregate of the three pallets, as configured by
`Runtime::new`. -/
structure Runtime where
  system : SystemPallet
  balances : BalancesPallet
  staking : StakingPallet
deriving Repr

/-- `Runtime::new`: fresh pallets; staking configured with minimum
stake 100, reward rate 5, unstaking period 10, max 10 validators. -/
def Runtime.new : Runtime :=
  { system := SystemPallet.new, balances := BalancesPallet.new,
    staking := new_with_config 100 5 10 10 }

/-- `Dispatch for balances::Pallet`: route `Transfer`, collapsing the
typed error to the static string. -/
def balances_dispatch (st : BalancesPallet) (caller : String)
    (call : BalancesCall) : Except String Unit × BalancesPallet :=
  match call with
  | .Transfer to_ amount =>
      match transfer st caller to_ amount with
      | (.ok _, st') => (.ok (), st')
      | (.error _, st') => (.error "Transfer failed", st')

/-- `Dispatch for staking::Pallet`. -/
def staking_dispatch (st : StakingPallet) (caller : String)
    (call : StakingCall) : Except String Unit × StakingPallet :=
  match call with
  | .AddValidator validator commission =>
      match add_validator st validator commission with
      | (.ok _, st') => (.ok (), st')
      | (.error _, st') => (.error "Failed to add validator", st')
  | .Stake _ _ => (.error "Staking through dispatch not implemented yet", st)
  | .Unstake =>
      match unstake st caller with
      | (.ok _, st') => (.ok (), st')
      | (.error _, st') => (.error "Failed to unstake", st')
  | .ClaimRewards =>
      match claim_rewards st caller with
      | (.ok _, st') => (.ok (), st')
      | (.error _, st') => (.error "Failed to claim rewards", st')

/-- `Dispatch for Runtime`: route by module tag, propagating the error
unchanged. -/
def runtime_dispatch (rt : Runtime) (caller : String) (call : RuntimeCall) :
    Except String Unit × Runtime :=
  match call with
  | .Balances c =>
      ((balances_dispatch rt.balances caller c).1,
        { rt with balances := (balances_dispatch rt.balances caller c).2 })
  | .Staking c =>
      ((staking_dispatch rt.staking caller c).1,
        { rt with staking := (staking_dispatch rt.staking caller c).2 })

/-- `support::Header`. -/
structure Header where
  block_number : Nat
deriving Repr

/-- `support::Extrinsic`. -/
structure Extrinsic where
  caller : String
  call : RuntimeCall
deriving Repr

/-- `support::Block`. -/
structure Block where
  header : Header
  extrinsics : List Extrinsic
deriving Repr

/-- One step of `Runtime::execute_block`'s extrinsic loop: increment the
caller's nonce, dispatch, ignore the result. -/
def exec_extrinsic_step (r : Runtime) (ext : Extrinsic) : Runtime :=
  (runtime_dispatch { r with system := inc_nonce r.system ext.caller }
    ext.caller ext.call).2

/-- `Runtime::execute_block`: advance the block number, check it against
the header, then run every extrinsic (a failed dispatch neither rolls
back the nonce increment nor aborts the block). -/
def execute_block (rt : Runtime) (block : Block) :
    Except String Unit × Runtime :=
  let rt1 := { rt with system := inc_block_number rt.system }
  if rt1.system.block_number ≠ block.header.block_number then
    (.error "block number does not match what is expected", rt1)
  else
    (.ok (), block.extrinsics.foldl exec_extrinsic_step rt1)

/-- `Transaction` from `main.rs` (`from` and `to` are Lean keywords,
hence `from_` and `to_`). -/
inductive Transaction where
  | Transfer (from_ : String) (to_ : String) (amount : Nat)
  | SetBalance (who : String) (amount : Nat)
  | AddValidator (validator : String) (commission : Nat)
  | Stake (who : String) (amount : Nat) (validator : String)
  | Unstake (who : String)
  | ClaimRewards (who : String)
deriving DecidableEq, Repr

/-- Rust `format!("{:?}", e)` for `BalancesError`. -/
def balancesErrName : BalancesError → String
  | .InsufficientBalance => "InsufficientBalance"
  | .InsufficientFunds => "InsufficientFunds"
  | .OverflowInCalculation => "OverflowInCalculation"
  | .OverflowInTransfer => "OverflowInTransfer"
  | .InvalidAmount => "InvalidAmount"

/-- Rust `format!("{:?}", e)` for `StakingError`. -/
def stakingErrName : StakingError → String
  | .InsufficientBalance => "InsufficientBalance"
  | .NotStaked => "NotStaked"
  | .AlreadyStaked => "AlreadyStaked"
  | .MinimumStakeNotMet => "MinimumStakeNotMet"
  | .InvalidValidator => "InvalidValidator"
  | .TooManyValidators => "TooManyValidators"
  | .NotValidator => "NotValidator"
  | .AlreadyValidator => "AlreadyValidator"
  | .RewardCalculationError => "RewardCalculationError"
  | .UnstakingPeriodNotMet => "UnstakingPeriodNotMet"

/-- `Runtime::execute_transaction`: `Transfer`, `Stake`, `Unstake` and
`ClaimRewards` increment the caller's nonce first; `SetBalance` and
`AddValidator` do not touch the nonce.  On success `Stake` debits (and
`Unstake` / `ClaimRewards` credit) the spendable balance via
`set_balance`. -/
def execute_transaction (rt : Runtime) (tx : Transaction) :
    Except String Unit × Runtime :=
  match tx with
  | .Transfer from_ to_ amount =>
      let rt1 := { rt with system := inc_nonce rt.system from_ }
      match transfer rt1.balances from_ to_ amount with
      | (.ok _, b) => (.ok (), { rt1 with balances := b })
      | (.error e, b) => (.error (balancesErrName e), { rt1 with balances := b })
  | .SetBalance who amount =>
      (.ok (), { rt with balances := set_balance rt.balances who amount })
  | .AddValidator validator commission =>
      match add_validator rt.staking validator commission with
      | (.ok _, s) => (.ok (), { rt with staking := s })
      | (.error e, s) => (.error (stakingErrName e), { rt with staking := s })
  | .Stake who amount validator =>
      let rt1 := { rt with system := inc_nonce rt.system who }
      let balance_check := fun account => balance rt1.balances account
      match stake rt1.staking who amount validator balance_check with
      | (.ok _, s) =>
          let current_balance := balance rt1.balances who
          (.ok (), { rt1 with
            staking := s
            balances := set_balance rt1.balances who (current_balance - amount) })
      | (.error e, s) => (.error (stakingErrName e), { rt1 with staking := s })
  | .Unstake who =>
      let rt1 := { rt with system := inc_nonce rt.system who }
      match unstake rt1.staking who with
      | (.ok amount, s) =>
          let current_balance := balance rt1.balances who
          (.ok (), { rt1 with
            staking := s
            balances := set_balance rt1.balances who (current_balance + amount) })
      | (.error e, s) => (.error (stakingErrName e), { rt1 with staking := s })
  | .ClaimRewards who =>
      let rt1 := { rt with system := inc_nonce rt.system who }
      match claim_rewards rt1.staking who with
      | (.ok rewards, s) =>
          let current_balance := balance rt1.balances who
          (.ok (), { rt1 with
            staking := s
            balances := set_balance rt1.balances who (current_balance + rewards) })
      | (.error e, s) => (.error (stakingErrName e), { rt1 with staking := s })

/-- `BlockResult` from `main.rs`. -/
structure BlockResult where
  block_number : Nat
  block_hash : List Nat
  successful_transactions : List Transaction
  failed_transactions : List (Transaction × String)
  transaction_count : Nat
deriving Repr

/-- One step of `Runtime::create_block`'s transaction loop, threading
the lists of successful and failed transactions. -/
def exec_tx_step
    (acc : Runtime × List Transaction × List (Transaction × String))
    (tx : Transaction) :
    Runtime × List Transaction × List (Transaction × String) :=
  match execute_transaction acc.1 tx with
  | (.ok _, r) => (r, acc.2.1 ++ [tx], acc.2.2)
  | (.error e, r) => (r, acc.2.1, acc.2.2 ++ [(tx, e)])

/-- `Runtime::create_block`: advance the block number, notify staking
(`on_block`), run every transaction recording success/failure, then
finalize the block. -/
def create_block (rt : Runtime) (transactions : List Transaction) :
    Runtime × BlockResult :=
  let rt1 := { rt with system := inc_block_number rt.system }
  let current_block := rt1.system.block_number
  let rt2 := { rt1 with staking := on_block rt1.staking current_block }
  let res := transactions.foldl exec_tx_step (rt2, [], [])
  let sys2 := (finalize_block res.1.system).2
  let block_hash := (finalize_block res.1.system).1
  ({ res.1 with system := sys2 },
    { block_number := current_block, block_hash := block_hash,
      successful_transactions := res.2.1, failed_transactions := res.2.2,
      transaction_count := res.2.1.length })

/-- Nonce of an account as stored by the system pallet. -/
def nonceOf (rt : Runtime) (acct : String) : Nat :=
  (lookupO rt.system.nonce acct).getD 0

/-- Extrinsics in a list whose caller is the given account. -/
def countCaller (acct : String) : List Extrinsic → Nat
  | [] => 0
  | e :: rest => (if e.caller = acct then 1 else 0) + countCaller acct rest

/-- Whether a transaction increments the given account's nonce in
`execute_transaction` (1 for Transfer/Stake/Unstake/ClaimRewards by the
account, 0 otherwise — `SetBalance` and `AddValidator` never do). -/
def txNonceIncr (acct : String) : Transaction → Nat
  | .Transfer from_ _ _ => if from_ = acct then 1 else 0
  | .SetBalance _ _ => 0
  | .AddValidator _ _ => 0
  | .Stake who _ _ => if who = acct then 1 else 0
  | .Unstake who => if who = acct then 1 else 0
  | .ClaimRewards who => if who = acct then 1 else 0

/-- Total nonce increments a transaction list owes the account. -/
def countNonceIncr (acct : String) : List Transaction → Nat
  | [] => 0
  | tx :: rest => txNonceIncr acct tx + countNonceIncr acct rest

/-- System state at block 2 with one tracked nonce and an all-zero
stored hash for block 1. -/
def sysParentZero : SystemPallet :=
  { block_number := 2, nonce := [("a", 1)],
    block_hashes := [(1, List.replicate 32 0)] }

/-- Same as `sysParentZero` but the stored hash of block 1 (the parent)
is different. -/
def sysParentSeven : SystemPallet :=
  { block_number := 2, nonce := [("a", 1)],
    block_hashes := [(1, List.replicate 32 7)] }

/-- Two states at different nonzero block numbers with different nonce
tables of equal size. -/
def sysThree : SystemPallet :=
  { block_number := 3, nonce := [("a", 1)], block_hashes := [] }

/-- See `sysThree`. -/
def sysSeven : SystemPallet :=
  { block_number := 7, nonce := [("b", 2)], block_hashes := [(1, [9])] }

/-! ### Theorems -/

theorem lookupO_setB_self {α β : Type} [DecidableEq α]
    (m : List (α × β)) (k : α) (v : β) : lookupO (setB m k v) k = some v := by
  induction m with
  | nil => simp [setB, lookupO]
  | cons p t ih =>
      obtain ⟨k1, v1⟩ := p
      by_cases h : k1 = k
      · simp [setB, h, lookupO]
      · simp [setB, h, lookupO, ih]

theorem lookupO_setB_ne {α β : Type} [DecidableEq α]
    (m : List (α × β)) (k k2 : α) (v : β) (h : k ≠ k2) :
    lookupO (setB m k v) k2 = lookupO m k2 := by
  induction m with
  | nil => simp [setB, lookupO, h]
  | cons p t ih =>
      obtain ⟨k1, v1⟩ := p
      by_cases h1 : k1 = k
      · subst h1
        simp [setB, lookupO, h]
      · simp [setB, h1, lookupO, ih]

theorem totalOf_setB {α : Type} [DecidableEq α]
    (m : List (α × Nat)) (k : α) (v : Nat) :
    totalOf (setB m k v) + (lookupO m k).getD 0 = totalOf m + v := by
  induction m with
  | nil => simp [setB, totalOf, lookupO]
  | cons p t ih =>
      obtain ⟨k1, v1⟩ := p
      by_cases h : k1 = k
      · simp [setB, h, totalOf, lookupO]
        omega
      · simp only [setB, h, if_false, totalOf, List.map_cons, List.sum_cons,
          lookupO]
        simp only [totalOf] at ih
        omega

theorem checkedAdd_eq_some {a b c : Nat} :
    checkedAdd a b = some c ↔ a + b ≤ U128MAX ∧ c = a + b := by
  unfold checkedAdd
  split <;> simp_all
  omega

theorem checkedSub_eq_some {a b c : Nat} :
    checkedSub a b = some c ↔ b ≤ a ∧ c = a - b := by
  unfold checkedSub
  split <;> simp_all
  omega

theorem lookupO_getD_le_totalOf {α : Type} [DecidableEq α]
    (m : List (α × Nat)) (k : α) : (lookupO m k).getD 0 ≤ totalOf m := by
  induction m with
  | nil => simp [lookupO, totalOf]
  | cons p t ih =>
      obtain ⟨k1, v1⟩ := p
      by_cases h : k1 = k <;>
        simp only [lookupO, h, if_true, if_false, totalOf, List.map_cons,
          List.sum_cons, Option.getD_some] <;>
        simp only [totalOf] at ih <;>
        omega

/-- Structural case split for `transfer`: either the state is returned
unchanged, or the call succeeded, or it failed with
`OverflowInCalculation` while crediting a configured fee recipient
(the only failure after ledger mutation has begun). -/
theorem transfer_cases (st : BalancesPallet) (s r : String) (a : Nat) :
    (transfer st s r a).2 = st ∨ (transfer st s r a).1 = .ok () ∨
      ((transfer st s r a).1 = .error .OverflowInCalculation ∧
        (∃ tn, checkedAdd a st.base_fee = some tn) ∧
        st.fee_recipient ≠ none) := by
  simp only [transfer]
  split
  · left; rfl
  next tn hadd =>
    split
    next => left; rfl
    next hlt =>
      split
      · left; rfl
      next nsb hsub =>
        split
        · left; rfl
        next nrb hradd =>
          obtain ⟨hle, htn⟩ := checkedAdd_eq_some.mp hadd
          obtain ⟨has, hnsb⟩ := checkedSub_eq_some.mp hsub
          obtain ⟨hra, hnrb⟩ := checkedAdd_eq_some.mp hradd
          have hfee : calculate_fee st a ≤
              balance { st with
                balances := setB (setB st.balances s nsb) r nrb } s := by
            by_cases hsr : s = r
            · subst hsr
              have hb : balance { st with
                  balances := setB (setB st.balances s nsb) s nrb } s = nrb := by
                simp [balance, lookupO_setB_self]
              rw [hb]
              omega
            · have hb : balance { st with
                  balances := setB (setB st.balances s nsb) r nrb } s = nsb := by
                have e1 : lookupO (setB (setB st.balances s nsb) r nrb) s
                    = lookupO (setB st.balances s nsb) s :=
                  lookupO_setB_ne _ r s nrb (fun h => hsr h.symm)
                have e2 : lookupO (setB st.balances s nsb) s = some nsb :=
                  lookupO_setB_self _ s nsb
                simp [balance, e1, e2]
              rw [hb]
              omega
          simp only [handle_fee_payment]
          split
          next hfsub =>
            rw [checkedSub] at hfsub
            simp only [hfee, if_true] at hfsub
            exact Option.noConfusion hfsub
          next nb hfsub =>
            split
            next hrec => right; left; rfl
            next rcpt hrec =>
              split
              next hcadd =>
                right; right
                refine ⟨rfl, ⟨tn, hadd⟩, ?_⟩
                have hrec2 : st.fee_recipient = some rcpt := hrec
                rw [hrec2]
                simp
              next nrb2 hcadd => right; left; rfl

theorem except_isOk_iff {ε : Type} (e : Except ε Unit) :
    e.isOk = true ↔ e = .ok () := by
  cases e <;> simp [Except.isOk, Except.toBool]

theorem transfer_config (st : BalancesPallet) (s r : String) (a : Nat) :
    (transfer st s r a).2.base_fee = st.base_fee ∧
    (transfer st s r a).2.fee_recipient = st.fee_recipient := by
  simp only [transfer, handle_fee_payment]
  repeat' split
  all_goals exact ⟨rfl, rfl⟩

/-- On success `handle_fee_payment` moves the fee from the payer to the
recipient when one is configured, and burns it otherwise. -/
theorem handle_fee_total (st : BalancesPallet) (who : String) (fee : Nat) :
    (handle_fee_payment st who fee).1 = .ok () →
    ((st.fee_recipient = none →
        totalOf (handle_fee_payment st who fee).2.balances + fee
          = totalOf st.balances)
      ∧ ∀ rc, st.fee_recipient = some rc →
        totalOf (handle_fee_payment st who fee).2.balances
          = totalOf st.balances) := by
  simp only [handle_fee_payment]
  split
  next hfsub => intro h; exact absurd h (by simp)
  next nb hfsub =>
    obtain ⟨hge, hnb⟩ := checkedSub_eq_some.mp hfsub
    simp only [balance] at hge hnb
    have hB := lookupO_getD_le_totalOf st.balances who
    have h1 := totalOf_setB st.balances who nb
    split
    next hrec =>
      intro _
      have hrec2 : st.fee_recipient = none := hrec
      constructor
      · intro _
        show totalOf (setB st.balances who nb) + fee = totalOf st.balances
        omega
      · intro rc hrc
        rw [hrec2] at hrc
        exact absurd hrc (by simp)
    next rcpt hrec =>
      have hrec2 : st.fee_recipient = some rcpt := hrec
      split
      next hcadd => intro h; exact absurd h (by simp)
      next nrb2 hcadd =>
        intro _
        obtain ⟨hle2, hnrb2⟩ := checkedAdd_eq_some.mp hcadd
        simp only [balance] at hnrb2
        have h2 := totalOf_setB (setB st.balances who nb) rcpt nrb2
        constructor
        · intro hnone
          rw [hrec2] at hnone
          exact absurd hnone (by simp)
        · intro rc hrc
          show totalOf (setB (setB st.balances who nb) rcpt nrb2)
            = totalOf st.balances
          omega

/-- On success a transfer with distinct sender and receiver conserves the
total when a fee recipient is configured, and burns exactly the base fee
when none is. -/
theorem transfer_ok_total (st : BalancesPallet) (s r : String) (a : Nat)
    (hne : s ≠ r) :
    (transfer st s r a).1 = .ok () →
    ((st.fee_recipient = none →
        totalOf (transfer st s r a).2.balances + st.base_fee
          = totalOf st.balances)
      ∧ ∀ rc, st.fee_recipient = some rc →
        totalOf (transfer st s r a).2.balances = totalOf st.balances) := by
  simp only [transfer]
  split
  · intro h; exact absurd h (by simp)
  next tn hadd =>
    split
    next => intro h; exact absurd h (by simp)
    next hlt =>
      split
      · intro h; exact absurd h (by simp)
      next nsb hsub =>
        split
        · intro h; exact absurd h (by simp)
        next nrb hradd =>
          intro hok
          obtain ⟨has, hnsb⟩ := checkedSub_eq_some.mp hsub
          obtain ⟨hra, hnrb⟩ := checkedAdd_eq_some.mp hradd
          have hh := handle_fee_total
            { st with balances := setB (setB st.balances s nsb) r nrb } s
            (calculate_fee st a) hok
          have e1 := totalOf_setB st.balances s nsb
          have e2 := totalOf_setB (setB st.balances s nsb) r nrb
          have e3 : lookupO (setB st.balances s nsb) r = lookupO st.balances r :=
            lookupO_setB_ne _ s r nsb hne
          rw [e3] at e2
          simp only [balance] at has hnsb hnrb
          have htot : totalOf (setB (setB st.balances s nsb) r nrb)
              = totalOf st.balances := by omega
          constructor
          · intro hnone
            have h4 := hh.1 hnone
            show totalOf (handle_fee_payment
              { st with balances := setB (setB st.balances s nsb) r nrb } s
              (calculate_fee st a)).2.balances + st.base_fee
                = totalOf st.balances
            dsimp only at h4
            rw [htot] at h4
            exact h4
          · intro rc hrc
            have h4 := hh.2 rc hrc
            show totalOf (handle_fee_payment
              { st with balances := setB (setB st.balances s nsb) r nrb } s
              (calculate_fee st a)).2.balances = totalOf st.balances
            dsimp only at h4
            rw [htot] at h4
            exact h4

theorem transfer_none_ok_or_unchanged (st : BalancesPallet) (s r : String)
    (a : Nat) (hrec : st.fee_recipient = none) :
    (transfer st s r a).1 = .ok () ∨ (transfer st s r a).2 = st := by
  rcases transfer_cases st s r a with h | h | h
  · exact Or.inr h
  · exact Or.inl h
  · exact absurd hrec h.2.2

/-- C1 (amended): restricted to transfers whose sender differs from their
receiver.  With a fee recipient configured the total is conserved across
any sequence of successful transfers; with no recipient each successful
transfer burns exactly the base fee (failed transfers then leave the
state unchanged, so arbitrary sequences are covered). -/
theorem C1_conservation_amended (st : BalancesPallet) (ops : List TransferOp)
    (hne : ∀ op ∈ ops, op.sender ≠ op.receiver) :
    (st.fee_recipient ≠ none → allOkT st ops = true →
      totalOf (runTransfers st ops).balances = totalOf st.balances)
    ∧ (st.fee_recipient = none →
      totalOf (runTransfers st ops).balances
        + st.base_fee * countOkT st ops = totalOf st.balances) := by
  induction ops generalizing st with
  | nil =>
      refine ⟨fun _ _ => rfl, fun _ => ?_⟩
      simp [runTransfers, countOkT]
  | cons op rest ih =>
      have hneo : op.sender ≠ op.receiver := hne op (List.mem_cons_self op rest)
      have hner : ∀ op' ∈ rest, op'.sender ≠ op'.receiver :=
        fun op' h => hne op' (List.mem_cons_of_mem op h)
      have hcfg := transfer_config st op.sender op.receiver op.amount
      constructor
      · intro hrcpt hallok
        simp only [allOkT, Bool.and_eq_true] at hallok
        have hok : (transfer st op.sender op.receiver op.amount).1 = .ok () :=
          (except_isOk_iff _).mp hallok.1
        obtain ⟨rc, hrc⟩ : ∃ rc, st.fee_recipient = some rc := by
          cases hfr : st.fee_recipient with
          | none => exact absurd hfr hrcpt
          | some rc => exact ⟨rc, rfl⟩
        have hcons :=
          (transfer_ok_total st op.sender op.receiver op.amount hneo hok).2 rc hrc
        have ih1 :=
          (ih (transfer st op.sender op.receiver op.amount).2 hner).1
            (by rw [hcfg.2]; exact hrcpt) hallok.2
        simp only [runTransfers]
        rw [ih1, hcons]
      · intro hnone
        simp only [runTransfers, countOkT]
        cases hOk : (transfer st op.sender op.receiver op.amount).1.isOk with
        | false =>
            have hst : (transfer st op.sender op.receiver op.amount).2 = st := by
              rcases transfer_none_ok_or_unchanged st op.sender op.receiver
                  op.amount hnone with h | h
              · rw [← except_isOk_iff] at h
                rw [h] at hOk
                exact absurd hOk (by simp)
              · exact h
            rw [hst]
            have ih2 := (ih st hner).2 hnone
            simpa using ih2
        | true =>
            have hok : (transfer st op.sender op.receiver op.amount).1 = .ok () :=
              (except_isOk_iff _).mp hOk
            have hburn :=
              (transfer_ok_total st op.sender op.receiver op.amount hneo hok).1
                hnone
            have ih2 :=
              (ih (transfer st op.sender op.receiver op.amount).2 hner).2
                (by rw [hcfg.2]; exact hnone)
            rw [hcfg.1] at ih2
            simp only [if_true]
            rw [Nat.mul_add, Nat.mul_one]
            omega

/-- C1 witness: a successful alice→bob transfer with a configured fee
recipient conserves the total. -/
theorem C1_conservation_witness :
    totalOf (runTransfers stScenC [⟨"alice", "bob", 30⟩]).balances
      = totalOf stScenC.balances :=
  (C1_conservation_amended stScenC [⟨"alice", "bob", 30⟩] (by decide)).1
    (by decide) (by decide)

/-- C1 counterexample: with fee recipient "treasury" configured, the
self-transfer `transfer(alice, alice, 30)` succeeds and the sum of all
balances grows from 110 to 140 (the double insert overwrites the debit,
so the transferred amount is created out of thin air). -/
theorem C1_counterexample :
    (transfer stScenC "alice" "alice" 30).1 = .ok () ∧
    totalOf stScenC.balances = 110 ∧
    totalOf (transfer stScenC "alice" "alice" 30).2.balances = 140 := by
  decide

/-- C2 (amended): an error return leaves every balance unchanged, except
when the error is `OverflowInCalculation` raised while crediting the fee
recipient (i.e. when `amount + base_fee` itself did not overflow); in
that exceptional path the sender's debit and receiver's credit persist. -/
theorem C2_atomicity_amended (st : BalancesPallet) (s r : String) (a : Nat)
    (e : BalancesError) (herr : (transfer st s r a).1 = .error e)
    (hside : e ≠ .OverflowInCalculation ∨ checkedAdd a st.base_fee = none) :
    (transfer st s r a).2 = st := by
  rcases transfer_cases st s r a with h | h | h
  · exact h
  · rw [herr] at h
    exact absurd h (by simp)
  · obtain ⟨h1, ⟨tn, h2⟩, _⟩ := h
    rw [herr] at h1
    have he : e = .OverflowInCalculation := Except.error.inj h1
    rcases hside with h4 | h4
    · exact absurd he h4
    · rw [h4] at h2
      exact absurd h2 (by simp)

/-- C2 witness: an `InsufficientBalance` failure leaves the ledger
unchanged. -/
theorem C2_atomicity_witness :
    (transfer BalancesPallet.new "alice" "bob" 51).2 = BalancesPallet.new :=
  C2_atomicity_amended BalancesPallet.new "alice" "bob" 51
    .InsufficientBalance (by decide) (Or.inl (by decide))

/-- C2 counterexample: crediting the fee recipient overflows, `transfer`
returns an error, yet alice's balance has changed from 10 to 8 (and bob
was credited), refuting atomicity on this error path. -/
theorem C2_counterexample :
    (transfer stOverflow "alice" "bob" 1).1
        = .error .OverflowInCalculation ∧
    balance stOverflow "alice" = 10 ∧
    balance (transfer stOverflow "alice" "bob" 1).2 "alice" = 8 ∧
    balance (transfer stOverflow "alice" "bob" 1).2 "bob" = 1 := by
  decide

/-- C3: Scenario C — with base fee 5 and fee recipient "treasury"
(balance 10), after `set_balance(alice, 100)` the transfer of 30 from
alice to bob succeeds leaving alice 65, bob 30, treasury 15; and
Scenario A — transfer of 51 from a zero-balance account with fee 0 fails
with `InsufficientBalance` leaving every balance unchanged. -/
theorem C3_transfer_scenarios :
    (transfer stScenC "alice" "bob" 30).1 = .ok () ∧
    balance (transfer stScenC "alice" "bob" 30).2 "alice" = 65 ∧
    balance (transfer stScenC "alice" "bob" 30).2 "bob" = 30 ∧
    balance (transfer stScenC "alice" "bob" 30).2 "treasury" = 15 ∧
    (transfer BalancesPallet.new "alice" "bob" 51).1
        = .error .InsufficientBalance ∧
    (transfer BalancesPallet.new "alice" "bob" 51).2 = BalancesPallet.new := by
  decide

/-- C4 (code-bug evidence): with `unstaking_period = 10` an unstake in
the very block that created the stake (`current_block = stake_block = 0 <
0 + 10`) succeeds and returns the 200 staked tokens, because the source
computes `stake_block_plus_period` as bare `stake_info.stake_block`
("Simplified for now") and never adds `unstaking_period`. -/
theorem C4_unstake_period_not_enforced :
    (unstake stStaked "u1").1 = .ok 200 ∧
    (unstake stStaked "u1").2.total_staked = 0 ∧
    stStaked.current_block = 0 ∧
    stStaked.unstaking_period = 10 ∧
    (lookupO stStaked.stakes "u1").map StakeInfo.stake_block = some 0 := by
  decide

/-- C5 (code-bug evidence): for u1 (200 staked, rate 5, zero blocks since
the last claim) the spec formula yields 0 but the code returns the bare
`reward_rate` 5 — staked amount, elapsed blocks and commission are all
ignored; the `NotStaked` and `InvalidValidator` error cases do agree. -/
theorem C5_calculate_rewards_divergence :
    calculate_rewards stStaked "u1" = .ok 5 ∧
    calculate_rewards_spec stStaked "u1" = .ok 0 ∧
    calculate_rewards stStaked "nobody" = .error .NotStaked ∧
    calculate_rewards (remove_validator stStaked "v1").2 "u1"
        = .error .InvalidValidator ∧
    calculate_rewards_spec (remove_validator stStaked "v1").2 "u1"
        = .error .InvalidValidator := by
  decide

/-- C6 counterexample: after this stake sequence (no validator removals)
`total_staked` is `U128MAX` while the staked amounts sum to
`U128MAX + 1`: the third stake fails with `RewardCalculationError` on the
`total_staked` overflow but has already inserted u3's `StakeInfo`. -/
theorem C6_counterexample :
    (runStakeOps stTwoVals cex6ops).total_staked = U128MAX ∧
    sumStakes (runStakeOps stTwoVals cex6ops).stakes = U128MAX + 1 ∧
    containsB (runStakeOps stTwoVals cex6ops).stakes "u3" = true := by
  decide

/-! ### Map lemmas for the staking invariant -/
theorem lookupO_eq_none_iff {α β : Type} [DecidableEq α]
    (m : List (α × β)) (k : α) :
    lookupO m k = none ↔ k ∉ m.map Prod.fst := by
  induction m with
  | nil => simp [lookupO]
  | cons p t ih =>
      obtain ⟨k1, v1⟩ := p
      by_cases h : k1 = k
      · simp [lookupO, h]
      · simp only [lookupO, h, if_false, List.map_cons, List.mem_cons]
        rw [ih]
        constructor
        · intro hn hmem
          rcases hmem with he | hm
          · exact h he.symm
          · exact hn hm
        · intro hn hm
          exact hn (Or.inr hm)

theorem containsB_eq_false_iff {α β : Type} [DecidableEq α]
    (m : List (α × β)) (k : α) :
    containsB m k = false ↔ lookupO m k = none := by
  unfold containsB
  cases lookupO m k <;> simp

theorem setB_of_lookup_none {α β : Type} [DecidableEq α]
    (m : List (α × β)) (k : α) (v : β) (h : lookupO m k = none) :
    setB m k v = m ++ [(k, v)] := by
  induction m with
  | nil => simp [setB]
  | cons p t ih =>
      obtain ⟨k1, v1⟩ := p
      by_cases h1 : k1 = k
      · simp [lookupO, h1] at h
      · simp only [lookupO, h1, if_false] at h
        simp [setB, h1, ih h]

theorem sumStakes_append (m : List (String × StakeInfo)) (k : String)
    (v : StakeInfo) :
    sumStakes (m ++ [(k, v)]) = sumStakes m + v.staked_amount := by
  simp [sumStakes]

theorem sumStakesFor_append (m : List (String × StakeInfo)) (k : String)
    (v : StakeInfo) (w : String) :
    sumStakesFor (m ++ [(k, v)]) w
      = sumStakesFor m w + (if v.validator = w then v.staked_amount else 0) := by
  simp [sumStakesFor]

theorem sumStakes_eraseB (m : List (String × StakeInfo)) (k : String)
    (si : StakeInfo) (h : lookupO m k = some si) :
    sumStakes (eraseB m k) + si.staked_amount = sumStakes m := by
  induction m with
  | nil => simp [lookupO] at h
  | cons p t ih =>
      obtain ⟨k1, v1⟩ := p
      by_cases h1 : k1 = k
      · simp only [lookupO, h1, if_true, Option.some.injEq] at h
        subst h
        simp [eraseB, h1, sumStakes]
        omega
      · simp only [lookupO, h1, if_false] at h
        simp only [eraseB, h1, if_false, sumStakes, List.map_cons,
          List.sum_cons]
        simp only [sumStakes] at ih
        have := ih h
        omega

theorem sumStakesFor_eraseB (m : List (String × StakeInfo)) (k : String)
    (si : StakeInfo) (w : String) (h : lookupO m k = some si) :
    sumStakesFor (eraseB m k) w
        + (if si.validator = w then si.staked_amount else 0)
      = sumStakesFor m w := by
  induction m with
  | nil => simp [lookupO] at h
  | cons p t ih =>
      obtain ⟨k1, v1⟩ := p
      by_cases h1 : k1 = k
      · simp only [lookupO, h1, if_true, Option.some.injEq] at h
        subst h
        simp [eraseB, h1, sumStakesFor]
        omega
      · simp only [lookupO, h1, if_false] at h
        simp only [eraseB, h1, if_false, sumStakesFor, List.map_cons,
          List.sum_cons]
        simp only [sumStakesFor] at ih
        have := ih h
        omega

theorem eraseB_keys_sublist {α β : Type} [DecidableEq α]
    (m : List (α × β)) (k : α) :
    ((eraseB m k).map Prod.fst).Sublist (m.map Prod.fst) := by
  induction m with
  | nil => simp [eraseB]
  | cons p t ih =>
      obtain ⟨k1, v1⟩ := p
      by_cases h1 : k1 = k
      · simp only [eraseB, h1, if_true, List.map_cons]
        exact (List.sublist_cons_self _ _)
      · simp only [eraseB, h1, if_false, List.map_cons]
        exact ih.cons₂ k1

theorem lookupO_eraseB_self {α β : Type} [DecidableEq α]
    (m : List (α × β)) (k : α) (hnd : (m.map Prod.fst).Nodup) :
    lookupO (eraseB m k) k = none := by
  induction m with
  | nil => rfl
  | cons p t ih =>
      obtain ⟨k1, v1⟩ := p
      simp only [List.map_cons, List.nodup_cons] at hnd
      by_cases h1 : k1 = k
      · subst h1
        simp only [eraseB, if_pos rfl]
        exact (lookupO_eq_none_iff t k1).mpr hnd.1
      · simp only [eraseB, h1, if_false, lookupO]
        exact ih hnd.2

theorem nodup_concat {α : Type} {l : List α} {a : α}
    (h : l.Nodup) (ha : a ∉ l) : (l ++ [a]).Nodup := by
  simp [List.nodup_append, h, ha]

/-- A successful `stake` preserves the staking totals invariant and
records the staker. -/
theorem stake_ok_inv (st : StakingPallet) (who : String) (amount : Nat)
    (validator : String) (bc : String → Nat) (hInv : StakingInv st) :
    (stake st who amount validator bc).1 = .ok () →
    (StakingInv (stake st who amount validator bc).2 ∧
      containsB (stake st who amount validator bc).2.stakes who = true) := by
  obtain ⟨hT, hV, hND⟩ := hInv
  simp only [stake]
  split
  next hcont => intro h; exact absurd h (by simp)
  next hcont =>
    split
    next => intro h; exact absurd h (by simp)
    next hmin =>
      split
      next => intro h; exact absurd h (by simp)
      next validator_info hvi =>
        split
        next => intro h; exact absurd h (by simp)
        next hact =>
          split
          next => intro h; exact absurd h (by simp)
          next hbal =>
            have hnone : lookupO st.stakes who = none := by
              rw [← containsB_eq_false_iff]
              simpa using hcont
            have hset := setB_of_lookup_none st.stakes who
              { staked_amount := amount, validator := validator,
                stake_block := st.current_block,
                last_reward_block := st.current_block,
                total_rewards := 0 } hnone
            split
            next hvi2 => exact absurd hvi2 (by simp)
            next vi hvi2 =>
              split
              next => intro h; exact absurd h (by simp)
              next nts hadd =>
                simp only [stake_rest]
                split
                next => intro h; exact absurd h (by simp)
                next nt htot =>
                  intro _
                  obtain ⟨hle2, hnt⟩ := checkedAdd_eq_some.mp htot
                  obtain ⟨hle1, hnts⟩ := checkedAdd_eq_some.mp hadd
                  dsimp only at hnt hnt ⊢
                  refine ⟨⟨?_, ?_, ?_⟩, ?_⟩
                  · -- total_staked = sumStakes
                    show nt = sumStakes (setB st.stakes who _)
                    rw [hset, sumStakes_append]
                    dsimp only
                    omega
                  · -- per-validator totals
                    intro w wi hw
                    dsimp only at hw
                    by_cases hwv : validator = w
                    · subst hwv
                      rw [lookupO_setB_self] at hw
                      cases hw
                      show nts = sumStakesFor (setB st.stakes who _) validator
                      rw [hset, sumStakesFor_append]
                      dsimp only
                      rw [if_pos rfl]
                      have := hV validator vi (hvi.trans hvi2)
                      omega
                    · rw [lookupO_setB_ne _ _ _ _ hwv] at hw
                      have := hV w wi hw
                      show wi.total_stake = sumStakesFor (setB st.stakes who _) w
                      rw [hset, sumStakesFor_append]
                      dsimp only
                      rw [if_neg hwv]
                      omega
                  · -- nodup staker keys
                    show ((setB st.stakes who _).map Prod.fst).Nodup
                    rw [hset]
                    simp only [List.map_append, List.map_cons, List.map_nil]
                    exact nodup_concat hND ((lookupO_eq_none_iff _ _).mp hnone)
                  · -- the staker is recorded
                    show containsB (setB st.stakes who _) who = true
                    unfold containsB
                    rw [lookupO_setB_self]
                    rfl

/-- A successful `unstake` preserves the staking totals invariant and
removes the staker's record. -/
theorem unstake_ok_inv (st : StakingPallet) (who : String)
    (hInv : StakingInv st) :
    (unstake st who).1.isOk = true →
    (StakingInv (unstake st who).2 ∧
      containsB (unstake st who).2.stakes who = false) := by
  obtain ⟨hT, hV, hND⟩ := hInv
  simp only [unstake]
  split
  next hsi => intro h; simp [Except.isOk, Except.toBool] at h
  next stake_info hsi =>
    split
    next => intro h; simp [Except.isOk, Except.toBool] at h
    next hblk =>
      have hers := sumStakes_eraseB st.stakes who stake_info hsi
      have hndE : ((eraseB st.stakes who).map Prod.fst).Nodup :=
        (eraseB_keys_sublist st.stakes who).nodup hND
      have hcontE : containsB (eraseB st.stakes who) who = false :=
        (containsB_eq_false_iff _ _).mpr (lookupO_eraseB_self st.stakes who hND)
      split
      next hvnone =>
        simp only [unstake_rest]
        split
        next => intro h; simp [Except.isOk, Except.toBool] at h
        next nt htot =>
          intro _
          obtain ⟨hge, hnt⟩ := checkedSub_eq_some.mp htot
          dsimp only at hge hnt ⊢
          refine ⟨⟨?_, ?_, ?_⟩, ?_⟩
          · show nt = sumStakes (eraseB st.stakes who)
            omega
          · intro w wi hw
            dsimp only at hw
            have hbase := hV w wi hw
            have hne : stake_info.validator ≠ w := by
              intro he
              rw [he] at hvnone
              rw [hvnone] at hw
              exact Option.noConfusion hw
            have herf := sumStakesFor_eraseB st.stakes who stake_info w hsi
            rw [if_neg hne] at herf
            show wi.total_stake = sumStakesFor (eraseB st.stakes who) w
            omega
          · exact hndE
          · exact hcontE
      next vi hvsome =>
        split
        next => intro h; simp [Except.isOk, Except.toBool] at h
        next nts hsub =>
          simp only [unstake_rest]
          split
          next => intro h; simp [Except.isOk, Except.toBool] at h
          next nt htot =>
            intro _
            obtain ⟨hge, hnt⟩ := checkedSub_eq_some.mp htot
            obtain ⟨hge1, hnts⟩ := checkedSub_eq_some.mp hsub
            dsimp only at hge hnt ⊢
            refine ⟨⟨?_, ?_, ?_⟩, ?_⟩
            · show nt = sumStakes (eraseB st.stakes who)
              omega
            · intro w wi hw
              dsimp only at hw
              have herf := sumStakesFor_eraseB st.stakes who stake_info w hsi
              show wi.total_stake = sumStakesFor (eraseB st.stakes who) w
              by_cases hwv : stake_info.validator = w
              · subst hwv
                rw [lookupO_setB_self] at hw
                cases hw
                have hbase := hV stake_info.validator vi hvsome
                rw [if_pos rfl] at herf
                dsimp only
                omega
              · rw [lookupO_setB_ne _ _ _ _ hwv] at hw
                have hbase := hV w wi hw
                rw [if_neg hwv] at herf
                omega
            · exact hndE
            · exact hcontE

/-- The staking totals invariant is preserved along any clean sequence
of stake/unstake operations. -/
theorem runStakeOps_inv (ops : List StakeOp) (st : StakingPallet)
    (hInv : StakingInv st) (hclean : seqClean st ops) :
    StakingInv (runStakeOps st ops) := by
  induction ops generalizing st with
  | nil => exact hInv
  | cons op rest ih =>
      obtain ⟨hcl, hrest⟩ := hclean
      have hInv2 : StakingInv (applyStakeOp st op) := by
        cases op with
        | stakeOp who amount validator bc =>
            rcases hcl with hok | hunch
            · simp only [opOk] at hok
              exact (stake_ok_inv st who amount validator bc hInv
                ((except_isOk_iff _).mp hok)).1
            · rw [hunch]; exact hInv
        | unstakeOp who =>
            rcases hcl with hok | hunch
            · simp only [opOk] at hok
              exact (unstake_ok_inv st who hInv hok).1
            · rw [hunch]; exact hInv
      exact ih (applyStakeOp st op) hInv2 hrest

/-- C6 (amended): after any sequence of stake/unstake operations in
which every failing operation leaves the state unchanged (this excludes
only the `total_staked`-overflow path of `stake`, which records the
stake and then errors), `total_staked` equals the sum of all staked
amounts and each registered validator's `total_stake` equals the sum of
the staked amounts referencing it; moreover a successful `stake` leaves
the account with a `StakeInfo` record and a successful `unstake` removes
it, so a record exists exactly for the accounts with an active stake. -/
theorem C6_staking_totals_amended (st : StakingPallet) (ops : List StakeOp)
    (hInv : StakingInv st) (hclean : seqClean st ops) :
    StakingInv (runStakeOps st ops)
    ∧ (∀ who amount validator bc,
        (stake st who amount validator bc).1 = .ok () →
          is_staking (stake st who amount validator bc).2 who = true)
    ∧ (∀ who, (unstake st who).1.isOk = true →
        is_staking (unstake st who).2 who = false) := by
  refine ⟨runStakeOps_inv ops st hInv hclean, ?_, ?_⟩
  · intro who amount validator bc hok
    exact (stake_ok_inv st who amount validator bc hInv hok).2
  · intro who hok
    exact (unstake_ok_inv st who hInv hok).2

/-- The staking totals invariant holds for `stOneVal`. -/
theorem stOneVal_inv : StakingInv stOneVal := by
  refine ⟨by decide, ?_, by decide⟩
  intro v vi h
  have hv : stOneVal.validators =
      [("v1", { total_stake := 0, commission_rate := 0, is_active := true,
                nominators_count := 0, blocks_produced := 0 })] := by decide
  have hs : stOneVal.stakes = [] := by decide
  rw [hv] at h
  simp only [lookupO] at h
  by_cases he : "v1" = v
  · rw [if_pos he] at h
    cases h
    rw [hs]
    rfl
  · rw [if_neg he] at h
    exact Option.noConfusion h

/-- C6 witness: one successful stake of 100 on "v1" from a fresh pallet
is a clean sequence, so the invariant holds afterwards. -/
theorem C6_staking_totals_witness :
    StakingInv (runStakeOps stOneVal
      [.stakeOp "u1" 100 "v1" (fun _ => 1000)]) :=
  (C6_staking_totals_amended stOneVal
    [.stakeOp "u1" 100 "v1" (fun _ => 1000)]
    stOneVal_inv ⟨Or.inl (by decide), trivial⟩).1

/-- C9: `add_validator` checks, in order: a duplicate id fails
`AlreadyValidator`; a registry at `max_validators` capacity fails
`TooManyValidators`; a commission above 100 fails `InvalidValidator`;
otherwise the validator is inserted with zero total stake, active flag
set, zero nominators, and a `ValidatorAdded` event is appended. -/
theorem C9_add_validator_conditions (st : StakingPallet) (v : String)
    (c : Nat) :
    (containsB st.validators v = true →
        add_validator st v c = (.error .AlreadyValidator, st))
    ∧ (containsB st.validators v = false →
        st.validators.length ≥ st.max_validators →
        add_validator st v c = (.error .TooManyValidators, st))
    ∧ (containsB st.validators v = false →
        st.validators.length < st.max_validators → c > 100 →
        add_validator st v c = (.error .InvalidValidator, st))
    ∧ (containsB st.validators v = false →
        st.validators.length < st.max_validators → c ≤ 100 →
        (add_validator st v c).1 = .ok () ∧
        lookupO (add_validator st v c).2.validators v =
          some { total_stake := 0, commission_rate := c, is_active := true,
                 nominators_count := 0, blocks_produced := 0 } ∧
        (add_validator st v c).2.events
          = st.events ++ [.ValidatorAdded v]) := by
  refine ⟨?_, ?_, ?_, ?_⟩
  · intro h1
    simp [add_validator, h1]
  · intro h1 h2
    simp [add_validator, h1, h2]
  · intro h1 h2 h3
    simp [add_validator, h1, Nat.not_le.mpr h2, h3]
  · intro h1 h2 h3
    have hne : ¬c > 100 := Nat.not_lt.mpr h3
    refine ⟨?_, ?_, ?_⟩
    · simp [add_validator, h1, Nat.not_le.mpr h2, hne]
    · simp [add_validator, h1, Nat.not_le.mpr h2, hne, lookupO_setB_self]
    · simp [add_validator, h1, Nat.not_le.mpr h2, hne]

/-- C9 witness (Scenario E): a second `add_validator` with the already
registered id "v1" fails with `AlreadyValidator` and changes nothing. -/
theorem C9_add_validator_witness :
    add_validator stOneVal "v1" 10 = (.error .AlreadyValidator, stOneVal) :=
  (C9_add_validator_conditions stOneVal "v1" 10).1 (by decide)

/-- C10: every erroring staking operation leaves the event log
unchanged, and every successful `add_validator`, `remove_validator`,
`stake`, `unstake`, `claim_rewards` appends exactly one event of the
matching variant. -/
theorem C10_events_log (st : StakingPallet) :
    (∀ v c e, (add_validator st v c).1 = .error e →
        (add_validator st v c).2.events = st.events)
    ∧ (∀ v c, (add_validator st v c).1 = .ok () →
        (add_validator st v c).2.events = st.events ++ [.ValidatorAdded v])
    ∧ (∀ v e, (remove_validator st v).1 = .error e →
        (remove_validator st v).2.events = st.events)
    ∧ (∀ v, (remove_validator st v).1 = .ok () →
        (remove_validator st v).2.events = st.events ++ [.ValidatorRemoved v])
    ∧ (∀ who amount validator bc e,
        (stake st who amount validator bc).1 = .error e →
        (stake st who amount validator bc).2.events = st.events)
    ∧ (∀ who amount validator bc,
        (stake st who amount validator bc).1 = .ok () →
        (stake st who amount validator bc).2.events
          = st.events ++ [.Staked who amount validator])
    ∧ (∀ who e, (unstake st who).1 = .error e →
        (unstake st who).2.events = st.events)
    ∧ (∀ who amt, (unstake st who).1 = .ok amt →
        (unstake st who).2.events = st.events ++ [.Unstaked who amt])
    ∧ (∀ who e, (claim_rewards st who).1 = .error e →
        (claim_rewards st who).2.events = st.events)
    ∧ (∀ who amt, (claim_rewards st who).1 = .ok amt →
        (claim_rewards st who).2.events
          = st.events ++ [.RewardsPaid who amt]) := by
  refine ⟨?_, ?_, ?_, ?_, ?_, ?_, ?_, ?_, ?_, ?_⟩
  · intro v c e
    simp only [add_validator]
    repeat' split
    all_goals intro h
    all_goals first
      | rfl
      | exact absurd h (by simp)
  · intro v c
    simp only [add_validator]
    repeat' split
    all_goals intro h
    all_goals first
      | rfl
      | exact absurd h (by simp)
  · intro v e
    simp only [remove_validator]
    repeat' split
    all_goals intro h
    all_goals first
      | rfl
      | exact absurd h (by simp)
  · intro v
    simp only [remove_validator]
    repeat' split
    all_goals intro h
    all_goals first
      | rfl
      | exact absurd h (by simp)
  · intro who amount validator bc e
    simp only [stake, stake_rest]
    repeat' split
    all_goals intro h
    all_goals first
      | rfl
      | exact absurd h (by simp)
  · intro who amount validator bc
    simp only [stake, stake_rest]
    repeat' split
    all_goals intro h
    all_goals first
      | rfl
      | exact absurd h (by simp)
  · intro who e
    simp only [unstake, unstake_rest]
    repeat' split
    all_goals intro h
    all_goals first
      | rfl
      | exact absurd h (by simp)
  · intro who amt
    simp only [unstake, unstake_rest]
    repeat' split
    all_goals intro h
    all_goals try (dsimp only at h)
    all_goals first
      | rfl
      | (injection h with h2 <;> (subst h2; rfl))
      | exact absurd h (by simp)
  · intro who e
    simp only [claim_rewards]
    repeat' split
    all_goals intro h
    all_goals try (dsimp only at h)
    all_goals first
      | rfl
      | (injection h with h2 <;> (subst h2; rfl))
      | exact absurd h (by simp)
  · intro who amt
    simp only [claim_rewards]
    repeat' split
    all_goals intro h
    all_goals try (dsimp only at h)
    all_goals first
      | rfl
      | (injection h with h2 <;> (subst h2; rfl))
      | exact absurd h (by simp)

/-- C10 witness: a successful `add_validator` on a fresh pallet appends
exactly the `ValidatorAdded` event. -/
theorem C10_events_log_witness :
    (add_validator StakingPallet.new "v1" 0).2.events
      = StakingPallet.new.events ++ [.ValidatorAdded "v1"] :=
  (C10_events_log StakingPallet.new).2.1 "v1" 0 (by decide)

theorem nonceOf_inc_nonce (s : SystemPallet) (who acct : String) :
    (lookupO (inc_nonce s who).nonce acct).getD 0
      = (lookupO s.nonce acct).getD 0 + (if who = acct then 1 else 0) := by
  unfold inc_nonce
  by_cases h : who = acct
  · subst h
    show (lookupO (setB s.nonce who _) who).getD 0 = _
    rw [lookupO_setB_self]
    simp
  · show (lookupO (setB s.nonce who _) acct).getD 0 = _
    rw [lookupO_setB_ne _ _ _ _ h, if_neg h]
    omega

theorem runtime_dispatch_system (rt : Runtime) (caller : String)
    (call : RuntimeCall) :
    (runtime_dispatch rt caller call).2.system = rt.system := by
  cases call <;> rfl

/-- Every transaction increments the caller's nonce exactly when it is a
Transfer/Stake/Unstake/ClaimRewards by that caller. -/
theorem execute_transaction_nonce (rt : Runtime) (tx : Transaction)
    (acct : String) :
    nonceOf (execute_transaction rt tx).2 acct
      = nonceOf rt acct + txNonceIncr acct tx := by
  cases tx with
  | Transfer from_ to_ amount =>
      simp only [execute_transaction, txNonceIncr]
      split
      all_goals
        exact nonceOf_inc_nonce rt.system from_ acct
  | SetBalance who amount =>
      simp only [execute_transaction, txNonceIncr]
      simp [nonceOf]
  | AddValidator validator commission =>
      simp only [execute_transaction, txNonceIncr]
      split
      all_goals simp [nonceOf]
  | Stake who amount validator =>
      simp only [execute_transaction, txNonceIncr]
      split
      all_goals
        exact nonceOf_inc_nonce rt.system who acct
  | Unstake who =>
      simp only [execute_transaction, txNonceIncr]
      split
      all_goals
        exact nonceOf_inc_nonce rt.system who acct
  | ClaimRewards who =>
      simp only [execute_transaction, txNonceIncr]
      split
      all_goals
        exact nonceOf_inc_nonce rt.system who acct

theorem foldl_exec_extrinsic_nonce (exts : List Extrinsic) (r : Runtime)
    (acct : String) :
    nonceOf (exts.foldl exec_extrinsic_step r) acct
      = nonceOf r acct + countCaller acct exts := by
  induction exts generalizing r with
  | nil => simp [countCaller]
  | cons e rest ih =>
      simp only [List.foldl_cons, countCaller]
      rw [ih]
      have hstep : nonceOf (exec_extrinsic_step r e) acct
          = nonceOf r acct + (if e.caller = acct then 1 else 0) := by
        unfold exec_extrinsic_step nonceOf
        rw [runtime_dispatch_system]
        exact nonceOf_inc_nonce r.system e.caller acct
      rw [hstep]
      omega

theorem foldl_exec_tx_nonce (txs : List Transaction)
    (acc : Runtime × List Transaction × List (Transaction × String))
    (acct : String) :
    nonceOf (txs.foldl exec_tx_step acc).1 acct
      = nonceOf acc.1 acct + countNonceIncr acct txs := by
  induction txs generalizing acc with
  | nil => simp [countNonceIncr]
  | cons tx rest ih =>
      simp only [List.foldl_cons, countNonceIncr]
      rw [ih]
      have hstep : nonceOf (exec_tx_step acc tx).1 acct
          = nonceOf acc.1 acct + txNonceIncr acct tx := by
        unfold exec_tx_step
        split
        next r heq =>
          have h2 : (execute_transaction acc.1 tx).2 = r :=
            congrArg Prod.snd heq
          rw [← h2]
          exact execute_transaction_nonce acc.1 tx acct
        next e r heq =>
          have h2 : (execute_transaction acc.1 tx).2 = r :=
            congrArg Prod.snd heq
          rw [← h2]
          exact execute_transaction_nonce acc.1 tx acct
      rw [hstep]
      omega

/-- `nonceOf` only looks at the nonce table, which `finalize_block`
leaves untouched. -/
theorem nonceOf_finalize_wrap (r : Runtime) (acct : String) :
    nonceOf { r with system := (finalize_block r.system).2 } acct
      = nonceOf r acct := rfl

/-- C7 (amended): in `execute_block`, when the header matches, every
extrinsic increments its caller's nonce whether or not its dispatch
succeeds; in `create_block`, only the Transfer, Stake, Unstake and
ClaimRewards transactions increment the caller's nonce — `SetBalance`
and `AddValidator` do not touch it. -/
theorem C7_nonce_amended (rt : Runtime) (block : Block)
    (txs : List Transaction) (acct : String) :
    ((inc_block_number rt.system).block_number = block.header.block_number →
      nonceOf (execute_block rt block).2 acct
        = nonceOf rt acct + countCaller acct block.extrinsics)
    ∧ nonceOf (create_block rt txs).1 acct
        = nonceOf rt acct + countNonceIncr acct txs := by
  constructor
  · intro hmatch
    simp only [execute_block]
    rw [if_neg (fun hne => hne hmatch)]
    show nonceOf (block.extrinsics.foldl exec_extrinsic_step
      { rt with system := inc_block_number rt.system }) acct = _
    rw [foldl_exec_extrinsic_nonce]
    rfl
  · simp only [create_block]
    rw [nonceOf_finalize_wrap, foldl_exec_tx_nonce]
    rfl

/-- C7 witness: one Transfer extrinsic by "cheryl" in a header-matching
block leaves cheryl's nonce at exactly old + 1. -/
theorem C7_nonce_witness :
    nonceOf (execute_block Runtime.new
        ⟨⟨1⟩, [⟨"cheryl", .Balances (.Transfer "faith" 25)⟩]⟩).2 "cheryl"
      = nonceOf Runtime.new "cheryl"
        + countCaller "cheryl"
            [⟨"cheryl", .Balances (.Transfer "faith" 25)⟩] :=
  (C7_nonce_amended Runtime.new
    ⟨⟨1⟩, [⟨"cheryl", .Balances (.Transfer "faith" 25)⟩]⟩ [] "cheryl").1
    (by decide)

/-- C7 counterexample: a block holding the single transaction
`SetBalance("cheryl", 10000)` — one extrinsic attributed to cheryl —
leaves cheryl's nonce at 0, not at old + 1: `execute_transaction` never
calls `inc_nonce` for `SetBalance` (nor for `AddValidator`). -/
theorem C7_nonce_counterexample :
    nonceOf (create_block Runtime.new
        [Transaction.SetBalance "cheryl" 10000]).1 "cheryl"
      ≠ nonceOf Runtime.new "cheryl" + 1 ∧
    nonceOf (create_block Runtime.new
        [Transaction.SetBalance "cheryl" 10000]).1 "cheryl" = 0 := by
  decide

/-- C8 (amended): the stored hash is a deterministic function of only
two inputs — whether the block number is zero, and the count of tracked
nonces; the previously finalized block's hash never enters. -/
theorem C8_hash_inputs_amended (s1 s2 : SystemPallet)
    (hb : s1.block_number = 0 ↔ s2.block_number = 0)
    (hn : s1.nonce.length = s2.nonce.length) :
    (finalize_block s1).1 = (finalize_block s2).1 ∧
    (finalize_block s1).2.block_hashes
      = setB s1.block_hashes s1.block_number (generate_block_hash s1) := by
  have hsel : (if s1.block_number = 0 then (0 : Nat) else 1)
      = (if s2.block_number = 0 then 0 else 1) := by
    by_cases h : s1.block_number = 0
    · rw [if_pos h, if_pos (hb.mp h)]
    · rw [if_neg h, if_neg (fun hh => h (hb.mpr hh))]
  constructor
  · show generate_block_hash s1 = generate_block_hash s2
    simp only [generate_block_hash]
    rw [hsel, hn]
  · rfl

/-- C8 witness: two states agreeing only on block-number-is-zero and
nonce count finalize to the same hash. -/
theorem C8_hash_inputs_witness :
    (finalize_block sysThree).1 = (finalize_block sysSeven).1 :=
  (C8_hash_inputs_amended sysThree sysSeven (by decide) (by decide)).1

/-- C8 counterexample: two states identical except for the parent
block's stored hash finalize block 2 to the same hash — changing the
parent hash alone does not change the child hash, so there is no chain
linkage. -/
theorem C8_hash_counterexample :
    sysParentZero.block_number = sysParentSeven.block_number ∧
    sysParentZero.nonce = sysParentSeven.nonce ∧
    get_block_hash sysParentZero 1 ≠ get_block_hash sysParentSeven 1 ∧
    (finalize_block sysParentZero).1 = (finalize_block sysParentSeven).1 := by
  decide
